import Mathlib

/-!
Shallow embedding of the latent-planning repository's diffusion-policy core
(locodiff/dataset.py, locodiff/policy.py, locodiff/runner.py), together with
theorems settling the specification claims about it.

Tensors are embedded as nested lists (episode / time / feature) or, where the
code only ever addresses them pointwise, as index functions.  Machine floats
are embedded as rationals: every operation the claims touch is exact
(concatenation, slicing, padding, masking, zeroing), so no rounding model is
needed.
-/

namespace Locodiff

/-! ### Dataset embedding (locodiff/dataset.py) -/

/-- From `ExpertDataset.calculate_norm_data`: the per-time-step output-space
vector the y-statistics are computed over,
`all_obs_acts = torch.cat([all_actions, all_obs], dim=-1)`:
action features first, then observation features. -/
def norm_output_row (action_row obs_row : List ℚ) : List ℚ :=
  action_row ++ obs_row

/-- From `DiffusionPolicy.process` (training branch): the per-time-step model
input vector, `input = torch.cat([input_obs, input_act], dim=-1)`:
observation features first, then action features. -/
def process_input_row (obs_row action_row : List ℚ) : List ℚ :=
  obs_row ++ action_row

/-- From `DiffusionPolicy.act`: the action slice `x[..., self.obs_dim :]` of a
per-time-step feature vector. -/
def act_action_slice (obs_dim : ℕ) (row : List ℚ) : List ℚ :=
  row.drop obs_dim

/-- From `DiffusionPolicy.act`: the observation slice `x[..., : self.obs_dim]`
of a per-time-step feature vector. -/
def act_obs_slice (obs_dim : ℕ) (row : List ℚ) : List ℚ :=
  row.take obs_dim

/-- From `ExpertDataset.__init__`: `max_len = max(split.shape[0] for split in
obs_splits)` (with 0 for an empty list of episodes, which the code never
builds). -/
def max_len_of (splits : List (List (List ℚ))) : ℕ :=
  (splits.map List.length).foldr max 0

/-- Loop body of `ExpertDataset.add_padding`: right-pad one episode with
all-zero feature rows up to `max_len`
(`torch.nn.functional.pad(split, (0, 0, 0, max_len - split.shape[0]))`).
`dim` is the feature dimension of the data. -/
def pad_one (split : List (List ℚ)) (max_len dim : ℕ) : List (List ℚ) :=
  split ++ List.replicate (max_len - split.length) (List.replicate dim 0)

/-- `ExpertDataset.add_padding` with `temporal=True`: every episode is
right-padded to `max_len` and then `T_cond - 1` all-zero rows are prepended
(`x = torch.cat([x_pad, x], dim=1)`). -/
def add_padding (T_cond : ℕ) (splits : List (List (List ℚ))) (max_len dim : ℕ) :
    List (List (List ℚ)) :=
  splits.map (fun s => List.replicate (T_cond - 1) (List.replicate dim 0) ++ pad_one s max_len dim)

/-- Loop body of `ExpertDataset.create_masks`: the validity mask of one episode
of true length `len`: `T_cond - 1` leading ones (always-valid episode-start
padding), then `len` ones, then `max_len - len` trailing zeros. -/
def create_mask_one (len max_len T_cond : ℕ) : List ℕ :=
  List.replicate (T_cond - 1) 1 ++ (List.replicate len 1 ++ List.replicate (max_len - len) 0)

/-- `ExpertDataset.create_masks`: one validity mask per episode. -/
def create_masks (T_cond : ℕ) (splits : List (List (List ℚ))) (max_len : ℕ) :
    List (List ℕ) :=
  splits.map (fun s => create_mask_one s.length max_len T_cond)

/-- From `ExpertDataset.__getitem__`: the truncation length
`T = self.data["mask"][idx].sum()`. -/
def getitem_len (masks : List (List ℕ)) (idx : ℕ) : ℕ :=
  (masks.getD idx []).sum

/-- `ExpertDataset.__getitem__`: returns every stored key except `"mask"`,
each truncated to the first `mask.sum()` time steps. -/
def getitem (obs action : List (List (List ℚ))) (masks : List (List ℕ))
    (idx : ℕ) : List (String × List (List ℚ)) :=
  [("obs", (obs.getD idx []).take (getitem_len masks idx)),
   ("action", (action.getD idx []).take (getitem_len masks idx))]

/-- Per-episode body of `SlicerWrapper._create_slices`: if the episode length
is at least `window`, one `(i, start, start + window)` triple per window start
in `range(length - window + 1)`; otherwise no slices. -/
def slices_for (i length window : ℕ) : List (ℕ × ℕ × ℕ) :=
  if window ≤ length then
    (List.range (length - window + 1)).map (fun start => (i, start, start + window))
  else []

/-- Loop of `SlicerWrapper._create_slices` over episode indices, carrying the
running episode index `i`. -/
def create_slices_aux (lens : List ℕ) (i window : ℕ) : List (ℕ × ℕ × ℕ) :=
  match lens with
  | [] => []
  | length :: rest => slices_for i length window ++ create_slices_aux rest (i + 1) window

/-- `SlicerWrapper._create_slices`: `window = T_cond + T - 1`, then the loop
over all episodes, where `lens` are the per-episode lengths
`len(self.dataset[i]["obs"])`. -/
def create_slices (lens : List ℕ) (T_cond T : ℕ) : List (ℕ × ℕ × ℕ) :=
  create_slices_aux lens 0 (T_cond + T - 1)

/-- The per-episode lengths the slicer sees: the length of the `"obs"` entry
returned by `ExpertDataset.__getitem__` for each episode index. -/
def item_lens (obs_padded : List (List (List ℚ))) (masks : List (List ℕ)) : List ℕ :=
  (List.range obs_padded.length).map
    (fun i => ((obs_padded.getD i []).take (getitem_len masks i)).length)

/-- The dataset pipeline from raw episode splits to the slicer's window list:
padding, masks, `__getitem__` truncation lengths, `_create_slices`. -/
def dataset_slices (T_cond T dim : ℕ) (obs_splits : List (List (List ℚ))) :
    List (ℕ × ℕ × ℕ) :=
  create_slices
    (item_lens (add_padding T_cond obs_splits (max_len_of obs_splits) dim)
      (create_masks T_cond obs_splits (max_len_of obs_splits)))
    T_cond T

/-- `SlicerWrapper.__getitem__`: looks up the slice triple and returns every
key of the underlying `ExpertDataset` item restricted to `[start, end)`
(`v[start:end]`, i.e. drop `start` then take `end - start`). -/
def slicer_getitem (obs action : List (List (List ℚ))) (masks : List (List ℕ))
    (slices : List (ℕ × ℕ × ℕ)) (idx : ℕ) : List (String × List (List ℚ)) :=
  (getitem obs action masks (slices.getD idx (0, 0, 0)).1).map
    (fun kv => (kv.1, (kv.2.drop (slices.getD idx (0, 0, 0)).2.1).take
      ((slices.getD idx (0, 0, 0)).2.2 - (slices.getD idx (0, 0, 0)).2.1)))

/-! ### Policy embedding (locodiff/policy.py)

The observation-history buffer is a nested list (environment / time / feature).
The inpainting target and mask, which the code only ever addresses pointwise,
are embedded as index functions `time → feature → ℚ` over the window shape. -/

/-- `DiffusionPolicy.update_history`: shift each environment's history left by
one slot (`obs_hist[:, :-1] = obs_hist[:, 1:]`) and write the new observation
into the last slot (`obs_hist[:, -1] = x["obs"]`). -/
def update_history (hist : List (List (List ℚ))) (new_obs : List (List ℚ)) :
    List (List (List ℚ)) :=
  List.zipWith (fun h o => h.drop 1 ++ [o]) hist new_obs

/-- Zero an environment's history slice, preserving its shape
(`self.obs_hist[...] = 0`). -/
def zero_like_env (h : List (List ℚ)) : List (List ℚ) :=
  h.map (fun row => row.map (fun _ => (0 : ℚ)))

/-- `DiffusionPolicy.reset`: with a done vector, zero exactly the history rows
of the environments marked done (`self.obs_hist[dones.bool()] = 0`); with no
argument, zero the whole buffer (`self.obs_hist.zero_()`). -/
def reset (hist : List (List (List ℚ))) (dones : Option (List Bool)) :
    List (List (List ℚ)) :=
  match dones with
  | some d => List.zipWith (fun dn h => if dn then zero_like_env h else h) d hist
  | none => hist.map zero_like_env

/-- The data dictionary handed to `DiffusionPolicy.process`: at inference the
`"obs"` entry is one observation per environment and there is no `"action"`
key; at training both `"obs"` and `"action"` are batched time sequences. -/
inductive ProcessData where
  | infer (obs : List (List ℚ))
  | train (obs : List (List (List ℚ))) (action : List (List (List ℚ)))

/-- Result of `DiffusionPolicy.process`: the normalized conditioning window
(`"obs"`), the normalized training input (`"input"`, absent at inference), and
the observation-history buffer after the call. -/
structure ProcessResult where
  obs : List (List (List ℚ))
  input : Option (List (List (List ℚ)))
  hist : List (List (List ℚ))

/-- `DiffusionPolicy.process`.  The normalizer (locodiff/utils.py, not part of
the embedded sources) is passed in as the functions `scale_input` and
`scale_output`, as the code holds it by reference.  Inference branch: push the
new observation into the history buffer, use the buffer as `raw_obs`, no
input.  Training branch: the buffer is untouched; `input` is the per-step
concatenation `[input_obs, input_act]` over either the full window (if
inpainting observations) or the slice `[T_cond - 1 : T_cond + T - 1]`.  Both
branches return `scale_input(raw_obs[:, : T_cond])` as the conditioning. -/
def process (T_cond T : ℕ) (inpaint_obs : Bool)
    (scale_input scale_output : List (List (List ℚ)) → List (List (List ℚ)))
    (hist : List (List (List ℚ))) (data : ProcessData) : ProcessResult :=
  match data with
  | ProcessData.infer new_obs =>
    let hist1 := update_history hist new_obs
    { obs := scale_input (hist1.map (List.take T_cond)), input := none, hist := hist1 }
  | ProcessData.train raw_obs raw_action =>
    let input_obs :=
      if inpaint_obs then raw_obs
      else raw_obs.map (fun s => (s.drop (T_cond - 1)).take T)
    let input_act :=
      if inpaint_obs then raw_action
      else raw_action.map (fun s => (s.drop (T_cond - 1)).take T)
    let inp := List.zipWith (fun o a => List.zipWith process_input_row o a) input_obs input_act
    { obs := scale_input (raw_obs.map (List.take T_cond)),
      input := some (scale_output inp), hist := hist }

/-- `DiffusionPolicy.create_inpainting_data`, mask component: starts as
`zeros_like(noise)` of shape `input_len × input_dim`; if `inpaint_obs`, the
block `[: T_cond, : obs_dim]` is set to 1; if `inpaint_final_obs`, the block
`[-1, : obs_dim]` is set to 1. -/
def create_inpainting_mask (inpaint_obs inpaint_final_obs : Bool)
    (T_cond obs_dim input_len : ℕ) : ℕ → ℕ → ℚ :=
  fun i j =>
    if (inpaint_obs = true ∧ i < T_cond ∧ j < obs_dim) ∨
        (inpaint_final_obs = true ∧ i = input_len - 1 ∧ j < obs_dim) then 1 else 0

/-- `DiffusionPolicy.create_inpainting_data`, target component: starts as
`zeros_like(noise)`; if `inpaint_obs`, `tgt[:, : T_cond, : obs_dim] =
data["obs"]`; if `inpaint_final_obs`, `tgt[:, -1, : obs_dim]` is then
overwritten with either the normalized fixed goal position
`scale_pos([1, 0, 0, 0])` (inference, `data["input"] is None`) or the final
observation of `data["input"]` (training). -/
def create_inpainting_tgt (inpaint_obs inpaint_final_obs : Bool)
    (T_cond obs_dim input_len : ℕ) (hist_obs : ℕ → ℕ → ℚ)
    (input_data : Option (ℕ → ℕ → ℚ)) (scale_pos : List ℚ → List ℚ) :
    ℕ → ℕ → ℚ :=
  fun i j =>
    if inpaint_final_obs = true ∧ i = input_len - 1 ∧ j < obs_dim then
      match input_data with
      | none => (scale_pos [1, 0, 0, 0]).getD j 0
      | some inp => inp (input_len - 1) j
    else if inpaint_obs = true ∧ i < T_cond ∧ j < obs_dim then hist_obs i j
    else 0

/-- `DiffusionPolicy.act`, action extraction from the denormalized sample `x`
(time / feature): `x[:, T_cond - 1, obs_dim :]` when inpainting observations,
else `x[:, 0, obs_dim :]`. -/
def act_extract_action (inpaint_obs : Bool) (T_cond obs_dim : ℕ)
    (x : List (List ℚ)) : List ℚ :=
  if inpaint_obs then act_action_slice obs_dim (x.getD (T_cond - 1) [])
  else act_action_slice obs_dim (x.getD 0 [])

/-! ### Runner and EMA embedding (locodiff/runner.py) -/

/-- Modelled from the spec: the `ExponentialMovingAverage` helper lives in
locodiff/utils.py, which is not among the embedded sources; §4.5 of the spec
gives its contract.  `shadow` is the EMA shadow copy of the parameters,
`stored` the snapshot taken by `store` (absent before any `store`). -/
structure EMAState where
  shadow : List ℚ
  stored : Option (List ℚ)

/-- Modelled from the spec: `store(parameters)` snapshots the current live
parameter values. -/
def ema_store (s : EMAState) (params : List ℚ) : EMAState :=
  { shadow := s.shadow, stored := some params }

/-- Modelled from the spec: `copy_to(parameters)` overwrites the live
parameters with the shadow values; the new live values are returned. -/
def ema_copy_to (s : EMAState) (_params : List ℚ) : List ℚ :=
  s.shadow

/-- Modelled from the spec: `restore(parameters)` overwrites the live
parameters with the stored snapshot; restoring with no prior store is an
error (§7, pairing errors). -/
def ema_restore (s : EMAState) (_params : List ℚ) : Except String (List ℚ) :=
  match s.stored with
  | some p => Except.ok p
  | none => Except.error "EMA restore without a prior store"

/-- The runner state the checkpoint logic touches: live policy parameters,
optimizer state, normalizer statistics, training iteration, EMA tracker, and
the `use_ema` flag.  Optimizer and normalizer states are opaque to `save` and
`load`, hence type parameters. -/
structure RunnerState (OS NS : Type) where
  params : List ℚ
  optimizer_state : OS
  norm_state : NS
  iter : ℕ
  ema : EMAState
  use_ema : Bool

/-- The checkpoint mapping written by `DiffusionRunner.save`, field per key of
`saved_dict`. -/
structure Checkpoint (OS NS I : Type) where
  model_state_dict : List ℚ
  optimizer_state_dict : OS
  norm_state_dict : NS
  iter : ℕ
  infos : Option I

/-- `DiffusionRunner.save`: when `use_ema`, first `store` then `copy_to`
(live parameters become the shadow values); build `saved_dict` from the live
state; when `use_ema`, `restore` the live parameters afterwards.  Returns the
checkpoint and the runner state after the call. -/
def runner_save {OS NS I : Type} (r : RunnerState OS NS) (infos : Option I) :
    Except String (Checkpoint OS NS I × RunnerState OS NS) :=
  let ema1 := if r.use_ema then ema_store r.ema r.params else r.ema
  let params1 := if r.use_ema then ema_copy_to ema1 r.params else r.params
  let saved : Checkpoint OS NS I :=
    { model_state_dict := params1, optimizer_state_dict := r.optimizer_state,
      norm_state_dict := r.norm_state, iter := r.iter, infos := infos }
  if r.use_ema then
    match ema_restore ema1 params1 with
    | Except.ok p => Except.ok (saved, { r with ema := ema1, params := p })
    | Except.error e => Except.error e
  else
    Except.ok (saved, { r with ema := ema1, params := params1 })

/-- `DiffusionRunner.load`: restores model parameters, normalizer statistics,
optimizer state and training iteration from the checkpoint and returns
`loaded_dict["infos"]`. -/
def runner_load {OS NS I : Type} (r : RunnerState OS NS) (c : Checkpoint OS NS I) :
    RunnerState OS NS × Option I :=
  ({ r with params := c.model_state_dict, norm_state := c.norm_state_dict,
            optimizer_state := c.optimizer_state_dict, iter := c.iter },
   c.infos)

/-! ### Helper lemmas -/

theorem getD_of_lt {α : Type} {l : List α} {i : ℕ} (h : i < l.length) (d : α) :
    l.getD i d = l[i] := by
  rw [List.getD_eq_getElem?_getD, List.getElem?_eq_getElem h]
  rfl

theorem getD_map_in {α β : Type} {f : α → β} {l : List α} {i : ℕ} (h : i < l.length)
    (d : β) (d0 : α) : (l.map f).getD i d = f (l.getD i d0) := by
  rw [List.getD_eq_getElem?_getD, List.getElem?_map, List.getElem?_eq_getElem h,
    getD_of_lt h]
  rfl

theorem getD_zipWith {α β γ : Type} {f : α → β → γ} {l1 : List α} {l2 : List β}
    {i : ℕ} (h1 : i < l1.length) (h2 : i < l2.length) (d : γ) (d1 : α) (d2 : β) :
    (List.zipWith f l1 l2).getD i d = f (l1.getD i d1) (l2.getD i d2) := by
  rw [List.getD_eq_getElem?_getD, List.getElem?_zipWith,
    List.getElem?_eq_getElem h1, List.getElem?_eq_getElem h2,
    getD_of_lt h1, getD_of_lt h2]
  rfl

theorem getD_append_lt {α : Type} {l1 l2 : List α} {i : ℕ} (h : i < l1.length)
    (d : α) : (l1 ++ l2).getD i d = l1.getD i d := by
  rw [List.getD_eq_getElem?_getD, List.getElem?_append_left h,
    List.getD_eq_getElem?_getD]

/-- Validity-mask entry formula: entries before `T_cond - 1 + len` are 1. -/
theorem mask_getD_one {len max_len T_cond t : ℕ} (h : t < T_cond - 1 + len) :
    (create_mask_one len max_len T_cond).getD t 0 = 1 := by
  have hsplit : create_mask_one len max_len T_cond =
      List.replicate (T_cond - 1 + len) 1 ++ List.replicate (max_len - len) 0 := by
    rw [create_mask_one, List.replicate_add, List.append_assoc]
  rw [hsplit, getD_append_lt (by simpa using h), List.getD_eq_getElem?_getD,
    List.getElem?_replicate, if_pos (by simpa using h)]
  rfl

/-- Validity-mask sum: `T_cond - 1` prefix ones plus `len` true-step ones. -/
theorem mask_sum (len max_len T_cond : ℕ) :
    (create_mask_one len max_len T_cond).sum = T_cond - 1 + len := by
  simp [create_mask_one, List.sum_append, List.sum_const_nat]

/-- Every episode length is bounded by the common padded length. -/
theorem le_max_len_of {s : List (List ℚ)} {splits : List (List (List ℚ))}
    (h : s ∈ splits) : s.length ≤ max_len_of splits := by
  induction splits with
  | nil => cases h
  | cons a rest ih =>
    rcases List.mem_cons.mp h with h1 | h2
    · subst h1; simp [max_len_of]
    · have := ih h2
      simp only [max_len_of, List.map_cons, List.foldr_cons] at this ⊢
      omega

/-- Elements of `zipWith` come from paired elements of the inputs. -/
theorem of_mem_zipWith {α β γ : Type} {f : α → β → γ} {x : γ} :
    ∀ {l1 : List α} {l2 : List β}, x ∈ List.zipWith f l1 l2 →
      ∃ a b, a ∈ l1 ∧ b ∈ l2 ∧ x = f a b := by
  intro l1
  induction l1 with
  | nil => intro l2 h; simp at h
  | cons a as ih =>
    intro l2 h
    cases l2 with
    | nil => simp at h
    | cons b bs =>
      rcases List.mem_cons.mp h with h1 | h2
      · exact ⟨a, b, List.mem_cons_self _ _, List.mem_cons_self _ _, h1⟩
      · rcases ih h2 with ⟨a1, b1, ha, hb, hx⟩
        exact ⟨a1, b1, List.mem_cons_of_mem _ ha, List.mem_cons_of_mem _ hb, hx⟩

/-- Characterization of the slicer's per-episode windows. -/
theorem mem_slices_for {i L W : ℕ} {p : ℕ × ℕ × ℕ} (h : p ∈ slices_for i L W) :
    p.1 = i ∧ p.2.2 = p.2.1 + W ∧ p.2.1 + W ≤ L := by
  unfold slices_for at h
  by_cases hw : W ≤ L
  · rw [if_pos hw] at h
    rcases List.mem_map.mp h with ⟨s, hs, hp⟩
    have hs' := List.mem_range.mp hs
    subst hp
    refine ⟨rfl, rfl, show s + W ≤ L by omega⟩
  · rw [if_neg hw] at h
    cases h

/-- Windows produced by the slicer loop stay inside their episode's length. -/
theorem mem_create_slices_aux {W : ℕ} {p : ℕ × ℕ × ℕ} :
    ∀ {lens : List ℕ} {n : ℕ}, p ∈ create_slices_aux lens n W →
      n ≤ p.1 ∧ p.1 - n < lens.length ∧ p.2.2 = p.2.1 + W ∧
        p.2.1 + W ≤ lens.getD (p.1 - n) 0 := by
  intro lens
  induction lens with
  | nil => intro n h; cases h
  | cons L rest ih =>
    intro n h
    rcases List.mem_append.mp h with h1 | h2
    · rcases mem_slices_for h1 with ⟨hi, he, hb⟩
      refine ⟨le_of_eq hi.symm, ?_, he, ?_⟩
      · simp [hi]
      · rw [hi, Nat.sub_self]
        simpa using hb
    · rcases ih h2 with ⟨hn, hl, he, hb⟩
      refine ⟨by omega, by simp; omega, he, ?_⟩
      have hsub : p.1 - n = (p.1 - (n + 1)) + 1 := by omega
      rw [hsub, List.getD_cons_succ]
      exact hb

/-- Filtering the slicer's output on an episode index recovers exactly that
episode's windows. -/
theorem filter_slices_for {i j L W : ℕ} :
    (slices_for j L W).filter (fun p => p.1 == i) =
      if j = i then slices_for j L W else [] := by
  unfold slices_for
  by_cases hw : W ≤ L
  · rw [if_pos hw]
    by_cases hji : j = i
    · subst hji
      rw [if_pos rfl, List.filter_map]
      have htrue : List.filter ((fun p : ℕ × ℕ × ℕ => p.1 == j) ∘ fun s => (j, s, s + W))
          (List.range (L - W + 1)) = List.range (L - W + 1) := by
        rw [List.filter_eq_self]
        intro s _
        simp
      rw [htrue]
    · rw [if_neg hji, List.filter_map]
      have hfalse : List.filter ((fun p : ℕ × ℕ × ℕ => p.1 == i) ∘ fun s => (j, s, s + W))
          (List.range (L - W + 1)) = [] := by
        rw [List.filter_eq_nil_iff]
        intro s _
        simp [hji]
      rw [hfalse]
      rfl
  · rw [if_neg hw]
    simp

theorem filter_create_slices_aux {W i : ℕ} :
    ∀ {lens : List ℕ} {n : ℕ}, n ≤ i → i - n < lens.length →
      (create_slices_aux lens n W).filter (fun p => p.1 == i) =
        slices_for i (lens.getD (i - n) 0) W := by
  intro lens
  induction lens with
  | nil => intro n _ h; simp at h
  | cons L rest ih =>
    intro n hn hl
    rw [create_slices_aux, List.filter_append, filter_slices_for]
    by_cases hni : n = i
    · subst hni
      rw [if_pos rfl, Nat.sub_self, List.getD_cons_zero]
      have hempty : (create_slices_aux rest (n + 1) W).filter (fun p => p.1 == n) = [] := by
        rw [List.filter_eq_nil_iff]
        intro p hp
        have := (mem_create_slices_aux hp).1
        simp only [beq_iff_eq]
        omega
      rw [hempty, List.append_nil]
    · rw [if_neg hni, List.nil_append]
      have hn1 : n + 1 ≤ i := by omega
      have hl1 : i - (n + 1) < rest.length := by
        simp only [List.length_cons] at hl
        omega
      rw [ih hn1 hl1]
      have hsub : i - n = (i - (n + 1)) + 1 := by omega
      rw [hsub, List.getD_cons_succ]

/-- The number of windows one episode yields, as an integer. -/
theorem slices_for_length_int (i L W : ℕ) :
    ((slices_for i L W).length : ℤ) = max 0 ((L : ℤ) - (W : ℤ) + 1) := by
  unfold slices_for
  by_cases hw : W ≤ L
  · rw [if_pos hw]
    simp only [List.length_map, List.length_range]
    omega
  · rw [if_neg hw]
    simp only [List.length_nil]
    omega

/-- After the always-valid `T_cond - 1` prefix, a validity mask is ones
followed by zeros, hence monotone non-increasing. -/
theorem mask_chain (len max_len T_cond : ℕ) :
    List.Chain' (fun a b => a ≥ b) ((create_mask_one len max_len T_cond).drop (T_cond - 1)) := by
  have hdrop : (create_mask_one len max_len T_cond).drop (T_cond - 1) =
      List.replicate len 1 ++ List.replicate (max_len - len) 0 := by
    rw [create_mask_one, List.drop_left' (by simp)]
  rw [hdrop]
  apply List.Pairwise.chain'
  rw [List.pairwise_append]
  refine ⟨?_, ?_, ?_⟩
  · rw [List.pairwise_replicate]
    right
    exact le_refl 1
  · rw [List.pairwise_replicate]
    right
    exact le_refl 0
  · intro x hx y hy
    rw [List.eq_of_mem_replicate hx, List.eq_of_mem_replicate hy]
    exact Nat.zero_le 1

/-- Per-episode mask lookup in `create_masks`. -/
theorem create_masks_getD {T_cond ml : ℕ} {splits : List (List (List ℚ))} {i : ℕ}
    (hi : i < splits.length) :
    (create_masks T_cond splits ml).getD i [] =
      create_mask_one (splits.getD i []).length ml T_cond := by
  rw [create_masks, getD_map_in hi _ []]

/-- Lookup in a list built by mapping over `range`. -/
theorem getD_map_range {β : Type} (f : ℕ → β) {n i : ℕ} (h : i < n) (d : β) :
    ((List.range n).map f).getD i d = f i := by
  rw [getD_of_lt (by simpa using h), List.getElem_map, List.getElem_range]

/-- The length the slicer sees for episode `i` is the `__getitem__` truncation
length `T_cond - 1 + true_length`. -/
theorem item_lens_getD {T_cond dim : ℕ} {splits : List (List (List ℚ))} {i : ℕ}
    (hi : i < splits.length) :
    (item_lens (add_padding T_cond splits (max_len_of splits) dim)
        (create_masks T_cond splits (max_len_of splits))).getD i 0 =
      T_cond - 1 + (splits.getD i []).length := by
  have hobs_len : (add_padding T_cond splits (max_len_of splits) dim).length = splits.length := by
    simp only [add_padding, List.length_map]
  rw [item_lens, getD_map_range _ (by rw [hobs_len]; exact hi) 0]
  have hobs : (add_padding T_cond splits (max_len_of splits) dim).getD i [] =
      List.replicate (T_cond - 1) (List.replicate dim 0) ++
        pad_one (splits.getD i []) (max_len_of splits) dim := by
    rw [add_padding, getD_map_in hi _ []]
  have hsle : (splits.getD i []).length ≤ max_len_of splits := by
    apply le_max_len_of
    rw [getD_of_lt hi]
    exact List.getElem_mem hi
  rw [hobs, getitem_len, create_masks_getD hi, mask_sum, List.length_take]
  simp only [List.length_append, List.length_replicate, pad_one]
  omega

/-! ### Claim theorems -/

/-- Claim C2: for window length `W = T_cond + T - 1` and an episode presented
to the windowing step with length `L`, `_create_slices` enumerates exactly the
contiguous stride-1 windows of length `W` (one per start in
`range(L - W + 1)`), yields `max(0, L - W + 1)` examples for that episode
(zero, without error, when `L < W`), and the full slice list restricted to
episode `i` is exactly that episode's enumeration. -/
theorem claim_c2 : ∀ (T_cond T L i : ℕ) (lens : List ℕ), 1 ≤ T_cond →
    slices_for i L (T_cond + T - 1) =
      (List.range (L + 1 - (T_cond + T - 1))).map (fun s => (i, s, s + (T_cond + T - 1)))
  ∧ ((slices_for i L (T_cond + T - 1)).length : ℤ) =
      max 0 ((L : ℤ) - ((T_cond + T - 1 : ℕ) : ℤ) + 1)
  ∧ (i < lens.length →
      (create_slices lens T_cond T).filter (fun p => p.1 == i) =
        slices_for i (lens.getD i 0) (T_cond + T - 1)) := by
  intro T_cond T L i lens _
  refine ⟨?_, slices_for_length_int .., ?_⟩
  · unfold slices_for
    by_cases hw : T_cond + T - 1 ≤ L
    · rw [if_pos hw]
      have harg : L - (T_cond + T - 1) + 1 = L + 1 - (T_cond + T - 1) := by omega
      rw [harg]
    · rw [if_neg hw]
      have h0 : L + 1 - (T_cond + T - 1) = 0 := by omega
      rw [h0]
      rfl
  · intro hi
    rw [create_slices, filter_create_slices_aux (Nat.zero_le i) (by simpa using hi)]
    simp

/-- Witness for C2 at `T_cond = 4`, `T = 8`, an episode of presented length 53
inside the two-episode length list `[53, 33]`. -/
theorem claim_c2_witness :
    slices_for 0 53 (4 + 8 - 1) =
      (List.range (53 + 1 - (4 + 8 - 1))).map (fun s => (0, s, s + (4 + 8 - 1)))
  ∧ ((slices_for 0 53 (4 + 8 - 1)).length : ℤ) =
      max 0 ((53 : ℤ) - ((4 + 8 - 1 : ℕ) : ℤ) + 1)
  ∧ (create_slices [53, 33] 4 8).filter (fun p => p.1 == 0) =
      slices_for 0 ([53, 33].getD 0 0) (4 + 8 - 1) := by
  have h := claim_c2 4 8 53 0 [53, 33] (by decide)
  exact ⟨h.1, h.2.1, h.2.2 (by decide)⟩

/-- The two synthetic episodes of claim C3: true lengths 50 and 30, feature
dimension 1. -/
def scenario_splits : List (List (List ℚ)) :=
  [List.replicate 50 [0], List.replicate 30 [0]]

/-- Claim C3: with `T_cond = 4`, `T = 8` and episodes of lengths 50 and 30,
both episodes are buffer-padded to length 50 (stored length 53 after the
`T_cond - 1 = 3` prefix); episode 2's mask is 3 leading ones, 30 ones, then 20
trailing zeros; every mask is monotone non-increasing after the `T_cond - 1`
prefix; and episode 1 yields `50 + 3 - 11 + 1 = 43` windows. -/
theorem claim_c3 :
    (pad_one (List.replicate 50 [(0:ℚ)]) (max_len_of scenario_splits) 1).length = 50
  ∧ (pad_one (List.replicate 30 [(0:ℚ)]) (max_len_of scenario_splits) 1).length = 50
  ∧ (add_padding 4 scenario_splits (max_len_of scenario_splits) 1).map List.length = [53, 53]
  ∧ (create_masks 4 scenario_splits (max_len_of scenario_splits)).getD 1 [] =
      List.replicate 3 1 ++ (List.replicate 30 1 ++ List.replicate 20 0)
  ∧ (∀ len max_len T_cond, List.Chain' (fun a b => a ≥ b)
      ((create_mask_one len max_len T_cond).drop (T_cond - 1)))
  ∧ ((dataset_slices 4 8 1 scenario_splits).filter (fun p => p.1 == 0)).length = 43 := by
  exact ⟨by decide, by decide, by decide, by decide, mask_chain, by decide⟩

/-- Lookup through `drop`: dropping `n` then reading index `j` reads `n + j`. -/
theorem getD_drop {α : Type} (l : List α) (n j : ℕ) (d : α) :
    (l.drop n).getD j d = l.getD (n + j) d := by
  rw [List.getD_eq_getElem?_getD, List.getElem?_drop, ← List.getD_eq_getElem?_getD]

/-- Every entry of a zeroed environment slice is zero. -/
theorem zero_env_entry (h : List (List ℚ)) (t j : ℕ) :
    ((zero_like_env h).getD t []).getD j 0 = 0 := by
  unfold zero_like_env
  simp only [List.getD_eq_getElem?_getD, List.getElem?_map]
  cases h[t]? with
  | none => simp
  | some row =>
    simp only [Option.map_some', Option.getD_some, List.getElem?_map]
    cases row[j]? <;> simp

/-- Claim C10: windows handed to training contain only valid time steps: every
time index of every window produced by the dataset pipeline lies where the
episode's validity mask is 1 (`__getitem__` truncates each episode to its
first `mask.sum()` steps before windowing), and the items returned to training
carry only the `obs` and `action` keys — never the mask. -/
theorem claim_c10 :
    (∀ (T_cond T dim : ℕ) (obs_splits : List (List (List ℚ))) (p : ℕ × ℕ × ℕ) (t : ℕ),
      p ∈ dataset_slices T_cond T dim obs_splits → p.2.1 ≤ t → t < p.2.2 →
      ((create_masks T_cond obs_splits (max_len_of obs_splits)).getD p.1 []).getD t 0 = 1)
  ∧ (∀ (obs action : List (List (List ℚ))) (masks : List (List ℕ))
      (slices : List (ℕ × ℕ × ℕ)) (idx : ℕ),
      (slicer_getitem obs action masks slices idx).map Prod.fst = ["obs", "action"]) := by
  constructor
  · intro T_cond T dim splits p t hp ht1 ht2
    simp only [dataset_slices, create_slices] at hp
    obtain ⟨-, hlen, he, hb⟩ := mem_create_slices_aux hp
    simp only [Nat.sub_zero] at hlen hb
    have hlens_len : (item_lens (add_padding T_cond splits (max_len_of splits) dim)
        (create_masks T_cond splits (max_len_of splits))).length = splits.length := by
      simp [item_lens, add_padding]
    have hplen : p.1 < splits.length := by
      rw [hlens_len] at hlen
      exact hlen
    rw [create_masks_getD hplen]
    apply mask_getD_one
    have hil := @item_lens_getD T_cond dim splits p.1 hplen
    rw [hil] at hb
    omega
  · intro obs action masks slices idx
    rfl

/-- Witness for C10: a one-episode dataset (length 3, `T_cond = 2`, `T = 2`),
the window `(0, 0, 3)` and time index 1 inside it, plus the key list of a
concrete slicer item. -/
theorem claim_c10_witness :
    ((create_masks 2 [List.replicate 3 [(0:ℚ)]]
        (max_len_of [List.replicate 3 [(0:ℚ)]])).getD 0 []).getD 1 0 = 1
  ∧ (slicer_getitem [] [] [] [] 0).map Prod.fst = ["obs", "action"] := by
  exact ⟨claim_c10.1 2 2 1 [List.replicate 3 [(0:ℚ)]] (0, 0, 3) 1 (by decide)
    (by decide) (by decide), claim_c10.2 [] [] [] [] 0⟩

/-- Claim C1 (evaluation at the failing input): with one action dimension
(value 10) and one observation dimension (value 20), the output-space
statistics are laid out `[action, obs]` (`calculate_norm_data`), while
`process` assembles the model input as `[obs, action]` and `act` slices the
dimensions from `obs_dim` on as the action; the two layouts disagree, and the
action slice of the statistics layout is not the action. -/
theorem claim_c1_order_mismatch :
    norm_output_row [10] [20] = [10, 20]
  ∧ process_input_row [20] [10] = [20, 10]
  ∧ norm_output_row [10] [20] ≠ process_input_row [20] [10]
  ∧ act_action_slice 1 (norm_output_row [10] [20]) ≠ [10] := by
  exact ⟨rfl, rfl, by decide, by decide⟩

/-- Claim C4 counterexample: with `inpaint_obs = false` (and
`inpaint_final_obs = false`; `T_cond = 2`, `obs_dim = 1`, `input_len = 3`) the
inpainting mask is 0, not 1, on the observation dimensions of the first
`T_cond` steps — the history is not pinned "regardless of configuration". -/
theorem claim_c4_counterexample :
    create_inpainting_mask false false 2 1 3 0 0 ≠ 1 := by
  decide

/-- Claim C4 amended: `create_inpainting_data` pins the observation dimensions
of the first `T_cond` steps (mask 1, target = normalized history) exactly when
`inpaint_obs` is enabled; when `inpaint_final_obs` is enabled the final step's
observation dimensions are pinned, with target the final observation of the
training input, or the fixed normalized goal position at inference; with both
flags off nothing is pinned. -/
theorem claim_c4_amended : ∀ (io ifo : Bool) (T_cond obs_dim L : ℕ)
    (hist : ℕ → ℕ → ℚ) (inp : ℕ → ℕ → ℚ) (sp : List ℚ → List ℚ) (i j : ℕ),
    (io = true → i < T_cond → j < obs_dim →
      create_inpainting_mask io ifo T_cond obs_dim L i j = 1)
  ∧ (io = true → i < T_cond → j < obs_dim → ¬(ifo = true ∧ i = L - 1) →
      create_inpainting_tgt io ifo T_cond obs_dim L hist (some inp) sp i j = hist i j
      ∧ create_inpainting_tgt io ifo T_cond obs_dim L hist none sp i j = hist i j)
  ∧ (ifo = true → j < obs_dim →
      create_inpainting_mask io ifo T_cond obs_dim L (L - 1) j = 1
      ∧ create_inpainting_tgt io ifo T_cond obs_dim L hist (some inp) sp (L - 1) j
          = inp (L - 1) j
      ∧ create_inpainting_tgt io ifo T_cond obs_dim L hist none sp (L - 1) j
          = (sp [1, 0, 0, 0]).getD j 0)
  ∧ (io = false → ifo = false →
      create_inpainting_mask io ifo T_cond obs_dim L i j = 0) := by
  intro io ifo T_cond obs_dim L hist inp sp i j
  refine ⟨?_, ?_, ?_, ?_⟩
  · intro hio hi hj
    simp [create_inpainting_mask, hio, hi, hj]
  · intro hio hi hj hni
    have hcond : ¬(ifo = true ∧ i = L - 1 ∧ j < obs_dim) := by tauto
    constructor <;>
    · simp only [create_inpainting_tgt]
      rw [if_neg hcond, if_pos ⟨hio, hi, hj⟩]
  · intro hifo hj
    refine ⟨?_, ?_, ?_⟩
    · simp [create_inpainting_mask, hifo, hj]
    · simp [create_inpainting_tgt, hifo, hj]
    · simp [create_inpainting_tgt, hifo, hj]
  · intro hio hifo
    simp [create_inpainting_mask, hio, hifo]

/-- Witness for the amended C4 at `T_cond = 2`, `obs_dim = 1`, `input_len = 4`,
history `hist i j = 10 i + j`, training input `inp i j = i + j`. -/
theorem claim_c4_amended_witness :
    create_inpainting_mask true true 2 1 4 0 0 = 1
  ∧ create_inpainting_tgt true true 2 1 4 (fun i j => (10 * i + j : ℚ))
      (some fun i j => (i + j : ℚ)) (fun v => v) 0 0 = 0
  ∧ create_inpainting_mask true true 2 1 4 3 0 = 1
  ∧ create_inpainting_tgt true true 2 1 4 (fun i j => (10 * i + j : ℚ))
      (some fun i j => (i + j : ℚ)) (fun v => v) 3 0 = 3
  ∧ create_inpainting_mask false false 2 1 4 0 0 = 0 := by
  have h := claim_c4_amended true true 2 1 4 (fun i j => (10 * i + j : ℚ))
    (fun i j => (i + j : ℚ)) (fun v => v) 0 0
  have h3 := claim_c4_amended true true 2 1 4 (fun i j => (10 * i + j : ℚ))
    (fun i j => (i + j : ℚ)) (fun v => v) 3 0
  have h0 := claim_c4_amended false false 2 1 4 (fun i j => (10 * i + j : ℚ))
    (fun i j => (i + j : ℚ)) (fun v => v) 0 0
  refine ⟨h.1 rfl (by decide) (by decide), ?_, ?_, ?_, h0.2.2.2 rfl rfl⟩
  · have := (h.2.1 rfl (by decide) (by decide) (by simp)).1
    simpa using this
  · exact (h3.2.2.1 rfl (by decide)).1
  · have := (h3.2.2.1 rfl (by decide)).2.1
    simpa using this

/-- Claim C5: `reset` with a done vector zeroes exactly the history rows of
the environments marked done and leaves every other environment's history
unchanged; `reset` with no argument zeroes the whole buffer. -/
theorem claim_c5 : ∀ (hist : List (List (List ℚ))) (d : List Bool) (e t j : ℕ),
    (e < hist.length → e < d.length → d.getD e false = true →
      (((reset hist (some d)).getD e []).getD t []).getD j 0 = 0)
  ∧ (e < hist.length → e < d.length → d.getD e false = false →
      (reset hist (some d)).getD e [] = hist.getD e [])
  ∧ (((reset hist none).getD e []).getD t []).getD j 0 = 0 := by
  intro hist d e t j
  refine ⟨?_, ?_, ?_⟩
  · intro he hd hdone
    rw [reset, getD_zipWith hd he [] false []]
    rw [hdone]
    simp only [if_pos]
    exact zero_env_entry _ t j
  · intro he hd hdone
    rw [reset, getD_zipWith hd he [] false [], hdone]
    simp
  · have he : (List.map zero_like_env hist).getD e [] = zero_like_env (hist.getD e []) := by
      simp only [List.getD_eq_getElem?_getD, List.getElem?_map]
      cases hist[e]? <;> simp [zero_like_env]
    rw [reset, he]
    exact zero_env_entry _ t j

/-- Witness for C5: a two-environment buffer with environment 0 done and
environment 1 not done, plus the no-argument reset. -/
theorem claim_c5_witness :
    (((reset [[[1, 2]], [[3, 4]]] (some [true, false])).getD 0 []).getD 0 []).getD 0 0 = 0
  ∧ (reset [[[1, 2]], [[3, 4]]] (some [true, false])).getD 1 [] =
      ([[[1, 2]], [[3, 4]]] : List (List (List ℚ))).getD 1 []
  ∧ (((reset [[[1, 2]], [[3, 4]]] (none : Option (List Bool))).getD 1 []).getD 0 []).getD 1 0 = 0 := by
  have h0 := claim_c5 [[[1, 2]], [[3, 4]]] [true, false] 0 0 0
  have h1 := claim_c5 [[[1, 2]], [[3, 4]]] [true, false] 1 0 1
  exact ⟨h0.1 (by decide) (by decide) (by decide),
    h1.2.1 (by decide) (by decide) (by decide), h1.2.2⟩

/-- Claim C6: `act` extracts the action at time index `T_cond - 1` when
observation inpainting is enabled and at time index 0 otherwise, in both cases
as the feature slice starting at `obs_dim`; when inpainting, the extraction
row is among the rows the inpainting mask pins to the history. -/
theorem claim_c6 : ∀ (io ifo : Bool) (T_cond obs_dim L : ℕ) (x : List (List ℚ)) (j : ℕ),
    act_extract_action io T_cond obs_dim x =
      act_action_slice obs_dim (x.getD (if io then T_cond - 1 else 0) [])
  ∧ (act_extract_action io T_cond obs_dim x).getD j 0 =
      (x.getD (if io then T_cond - 1 else 0) []).getD (obs_dim + j) 0
  ∧ (io = true → 1 ≤ T_cond → j < obs_dim →
      create_inpainting_mask io ifo T_cond obs_dim L (T_cond - 1) j = 1) := by
  intro io ifo T_cond obs_dim L x j
  refine ⟨?_, ?_, ?_⟩
  · cases io <;> rfl
  · cases io <;> simp only [act_extract_action, act_action_slice, if_true, if_false,
      Bool.false_eq_true, getD_drop]
  · intro hio h1 hj
    have hlt : T_cond - 1 < T_cond := by omega
    simp [create_inpainting_mask, hio, hlt, hj]

/-- Witness for C6: a three-step window with `obs_dim = 1`, `T_cond = 2`,
inpainting enabled. -/
theorem claim_c6_witness :
    act_extract_action true 2 1 [[1, 2], [3, 4], [5, 6]] =
      act_action_slice 1 (([[1, 2], [3, 4], [5, 6]] : List (List ℚ)).getD (if true then 2 - 1 else 0) [])
  ∧ (act_extract_action true 2 1 [[1, 2], [3, 4], [5, 6]]).getD 0 0 =
      (([[1, 2], [3, 4], [5, 6]] : List (List ℚ)).getD (if true then 2 - 1 else 0) []).getD (1 + 0) 0
  ∧ create_inpainting_mask true false 2 1 3 (2 - 1) 0 = 1 := by
  have h := claim_c6 true false 2 1 3 [[1, 2], [3, 4], [5, 6]] 0
  exact ⟨h.1, h.2.1, h.2.2 rfl (by decide) (by decide)⟩

/-- Every row of an updated history buffer still has `T_cond` slots. -/
theorem update_history_mem_length {hist : List (List (List ℚ))}
    {new_obs : List (List ℚ)} {T_cond : ℕ} (h1 : 1 ≤ T_cond)
    (hh : ∀ h ∈ hist, h.length = T_cond) :
    ∀ x ∈ update_history hist new_obs, x.length = T_cond := by
  intro x hx
  rcases of_mem_zipWith hx with ⟨a, b, ha, hb, hxe⟩
  subst hxe
  simp only [List.length_append, List.length_drop, List.length_singleton, hh a ha]
  omega

/-- Taking `T_cond` of every `T_cond`-slot row is the identity: the full
buffer is what `process` hands to the normalizer. -/
theorem take_full_buffer {hist1 : List (List (List ℚ))} {T_cond : ℕ}
    (hx : ∀ x ∈ hist1, x.length = T_cond) :
    hist1.map (List.take T_cond) = hist1 := by
  have hcong : ∀ x ∈ hist1, x.take T_cond = id x := by
    intro x h
    exact List.take_of_length_le (le_of_eq (hx x h))
  rw [List.map_congr_left hcong, List.map_id]

/-- Row lookup in an updated history buffer. -/
theorem update_history_getD {hist : List (List (List ℚ))}
    {new_obs : List (List ℚ)} {e : ℕ} (he : e < hist.length)
    (hl : e < new_obs.length) :
    (update_history hist new_obs).getD e [] =
      (hist.getD e []).drop 1 ++ [new_obs.getD e []] := by
  rw [update_history, getD_zipWith he hl [] [] []]

/-- Claim C7: called without an action (inference), `process` shifts the
fixed-length history buffer by one step, drops the oldest entry, writes the
new observation into the last slot and hands the normalized full buffer to
the model as conditioning; called with an action (training), `process` leaves
the history buffer untouched. -/
theorem claim_c7 : ∀ (T_cond T : ℕ) (io : Bool)
    (sIn sOut : List (List (List ℚ)) → List (List (List ℚ)))
    (hist : List (List (List ℚ))) (new_obs : List (List ℚ))
    (obs action : List (List (List ℚ))) (e t : ℕ),
    (process T_cond T io sIn sOut hist (ProcessData.infer new_obs)).hist =
      update_history hist new_obs
  ∧ (e < hist.length → e < new_obs.length → t + 1 < T_cond →
      (∀ h ∈ hist, h.length = T_cond) →
      ((process T_cond T io sIn sOut hist (ProcessData.infer new_obs)).hist.getD e []).getD t []
        = (hist.getD e []).getD (t + 1) [])
  ∧ (e < hist.length → e < new_obs.length → (∀ h ∈ hist, h.length = T_cond) →
      ((process T_cond T io sIn sOut hist (ProcessData.infer new_obs)).hist.getD e []).getD (T_cond - 1) []
        = new_obs.getD e [])
  ∧ ((∀ h ∈ hist, h.length = T_cond) → 1 ≤ T_cond →
      (process T_cond T io sIn sOut hist (ProcessData.infer new_obs)).obs =
        sIn ((process T_cond T io sIn sOut hist (ProcessData.infer new_obs)).hist))
  ∧ (process T_cond T io sIn sOut hist (ProcessData.train obs action)).hist = hist := by
  intro T_cond T io sIn sOut hist new_obs obs action e t
  refine ⟨rfl, ?_, ?_, ?_, rfl⟩
  · intro he hl ht hh
    show ((update_history hist new_obs).getD e []).getD t [] = _
    rw [update_history_getD he hl]
    have hlen : (hist.getD e []).length = T_cond := by
      rw [getD_of_lt he]
      exact hh _ (List.getElem_mem he)
    rw [getD_append_lt (by rw [List.length_drop, hlen]; omega), getD_drop]
    have h1t : 1 + t = t + 1 := by omega
    rw [h1t]
  · intro he hl hh
    show ((update_history hist new_obs).getD e []).getD (T_cond - 1) [] = _
    rw [update_history_getD he hl]
    have hlen : (hist.getD e []).length = T_cond := by
      rw [getD_of_lt he]
      exact hh _ (List.getElem_mem he)
    have hdl : ((hist.getD e []).drop 1).length = T_cond - 1 := by
      rw [List.length_drop, hlen]
    rw [List.getD_eq_getElem?_getD, List.getElem?_append_right (by rw [hdl]), hdl,
      Nat.sub_self]
    rfl
  · intro hh h1
    show sIn ((update_history hist new_obs).map (List.take T_cond)) =
      sIn (update_history hist new_obs)
    rw [take_full_buffer (update_history_mem_length h1 hh)]


/-- Witness for C7: one environment, `T_cond = 2`, buffer `[[1], [2]]`, new
observation `[5]`. -/
theorem claim_c7_witness :
    (process 2 1 false id id [[[1], [2]]] (ProcessData.infer [[5]])).hist =
      update_history [[[1], [2]]] [[5]]
  ∧ ((process 2 1 false id id [[[1], [2]]] (ProcessData.infer [[5]])).hist.getD 0 []).getD 0 []
      = (([[[1], [2]]] : List (List (List ℚ))).getD 0 []).getD (0 + 1) []
  ∧ ((process 2 1 false id id [[[1], [2]]] (ProcessData.infer [[5]])).hist.getD 0 []).getD (2 - 1) []
      = ([[5]] : List (List ℚ)).getD 0 []
  ∧ (process 2 1 false id id [[[1], [2]]] (ProcessData.infer [[5]])).obs =
      id ((process 2 1 false id id [[[1], [2]]] (ProcessData.infer [[5]])).hist)
  ∧ (process 2 1 false id id [[[1], [2]]] (ProcessData.train [[[3], [4]]] [[[6], [7]]])).hist
      = [[[1], [2]]] := by
  have h := claim_c7 2 1 false id id [[[1], [2]]] [[5]] [[[3], [4]]] [[[6], [7]]] 0 0
  exact ⟨h.1, h.2.1 (by decide) (by decide) (by decide) (by decide),
    h.2.2.1 (by decide) (by decide) (by decide),
    h.2.2.2.1 (by decide) (by decide), h.2.2.2.2⟩

/-- Claim C8: with `use_ema` set, `DiffusionRunner.save` succeeds and is an
identity on the live policy parameters (the store/copy_to/restore cycle
round-trips), while the model parameters written to the checkpoint are the
EMA shadow values. -/
theorem claim_c8 : ∀ {OS NS I : Type} (r : RunnerState OS NS) (infos : Option I),
    r.use_ema = true →
    (runner_save r infos).toOption.map
      (fun p => (p.2.params, p.1.model_state_dict)) =
      some (r.params, r.ema.shadow) := by
  intro OS NS I r infos h
  obtain ⟨params, os, ns, it, ema, ue⟩ := r
  cases ue
  · cases h
  · rfl

/-- A concrete runner state with EMA enabled, for the C8 witness. -/
def runner_example : RunnerState ℕ ℕ :=
  { params := [1, 2], optimizer_state := 7, norm_state := 8, iter := 5,
    ema := { shadow := [9, 10], stored := none }, use_ema := true }

/-- Witness for C8 at a concrete runner state. -/
theorem claim_c8_witness :
    (runner_save runner_example (none : Option ℕ)).toOption.map
      (fun p => (p.2.params, p.1.model_state_dict)) =
      some (runner_example.params, runner_example.ema.shadow) :=
  claim_c8 runner_example none rfl

/-- Claim C9: the checkpoint written by `save` carries the model parameters
(the EMA shadow when `use_ema`, the live parameters otherwise), the optimizer
state, the normalizer statistics, the training iteration and the free-form
metadata; `load` restores all four of parameters, normalizer statistics,
optimizer state and iteration from a checkpoint and returns the metadata. -/
theorem claim_c9 : ∀ {OS NS I : Type} (r r0 : RunnerState OS NS) (infos : Option I)
    (c : Checkpoint OS NS I),
    (runner_save r infos).toOption.map
      (fun p => (p.1.model_state_dict, p.1.optimizer_state_dict,
        p.1.norm_state_dict, p.1.iter, p.1.infos)) =
      some ((if r.use_ema then r.ema.shadow else r.params),
        r.optimizer_state, r.norm_state, r.iter, infos)
  ∧ (runner_load r0 c).1.params = c.model_state_dict
  ∧ (runner_load r0 c).1.norm_state = c.norm_state_dict
  ∧ (runner_load r0 c).1.optimizer_state = c.optimizer_state_dict
  ∧ (runner_load r0 c).1.iter = c.iter
  ∧ (runner_load r0 c).2 = c.infos := by
  intro OS NS I r r0 infos c
  obtain ⟨params, os, ns, it, ema, ue⟩ := r
  cases ue <;> exact ⟨rfl, rfl, rfl, rfl, rfl, rfl⟩

end Locodiff
